import Mathlib

/-!
Shallow embedding of the core value/dictionary/marshalling layer of the
janet runtime (src/core/util.c and the argument-marshalling translation
unit).  C machine integers are modelled as `Nat`/`Int` with explicit
`% 2^32` where 32-bit wraparound matters; C functions that can panic are
modelled as `Except JanetError`; pointers into bucket arrays are modelled
as indices (`Option Nat` standing for a possibly-NULL `JanetKV *`).
Heap-allocated container kinds carry an identity number: the external
`janet_equals` is structural for immediate kinds and identity-based for
heap kinds, which the derived decidable equality on this model realises.
-/

/-- The 16 value discriminants, in the order of `janet_type_names`. -/
inductive JanetType where
  | number | nil | boolean | fiber | string | symbol | keyword
  | array | tuple | table | struct | buffer | function | cfunction
  | abstract | pointer
  deriving DecidableEq, Repr

/-- Tagged-union value model.  `number` carries a rational standing for the
C double (every integer in the int32 range is exactly representable);
byte-sequence kinds carry their bytes; other heap kinds carry an identity
standing for the heap pointer.  `abstract` carries the identity of its
`JanetAbstractType` descriptor plus its own identity. -/
inductive JanetV where
  | nil
  | boolean (b : Bool)
  | number (q : Rat)
  | string (bytes : List Nat)
  | symbol (bytes : List Nat)
  | keyword (bytes : List Nat)
  | array (id : Nat)
  | tuple (id : Nat)
  | table (id : Nat)
  | struct (id : Nat)
  | buffer (id : Nat)
  | fiber (id : Nat)
  | function (id : Nat)
  | cfunction (id : Nat)
  | abstract (ty : Nat) (id : Nat)
  | pointer (id : Nat)
  deriving DecidableEq, Repr

/-- Discriminant of a value. -/
def janet_type : JanetV → JanetType
  | .nil => .nil
  | .boolean _ => .boolean
  | .number _ => .number
  | .string _ => .string
  | .symbol _ => .symbol
  | .keyword _ => .keyword
  | .array _ => .array
  | .tuple _ => .tuple
  | .table _ => .table
  | .struct _ => .struct
  | .buffer _ => .buffer
  | .fiber _ => .fiber
  | .function _ => .function
  | .cfunction _ => .cfunction
  | .abstract _ _ => .abstract
  | .pointer _ => .pointer

/-- `janet_checktype(x, t)`. -/
def janet_checktype (x : JanetV) (t : JanetType) : Bool :=
  janet_type x = t

/-- Structured panic payloads.  Each constructor corresponds to one panic
call site; the arguments are the data interpolated into the C format
string (the string formatter itself is external to this core). -/
inductive JanetError where
  | panicType (n : Nat) (expected : JanetType) (got : JanetV)
  | panicAbstract (n : Nat) (atName : List Nat) (got : JanetV)
  | arityAtLeast (min actual : Int)
  | arityAtMost (max actual : Int)
  | badSlotInteger (n : Nat) (got : JanetV)
  | halfRangeOOR (which : String) (raw length : Int)
  | argIndexOOR (which : String) (raw length : Int)
  | registerConflict (name : List Nat)
  | expectedAbstractType
  deriving DecidableEq, Repr

/-- `janet_arity(arity, min, max)`: panics on an arity mismatch against
either bound, a negative bound meaning unbounded on that side. -/
def janet_arity (arity min max : Int) : Except JanetError Unit :=
  if 0 ≤ min ∧ arity < min then .error (.arityAtLeast min arity)
  else if 0 ≤ max ∧ arity > max then .error (.arityAtMost max arity)
  else .ok ()

/-- The getter half of the `DEFINE_GETTER(name, NAME, type)` macro,
generic over the checked discriminant.  `janet_unwrap_<name>` is a
bijection between values of the checked discriminant and their payloads,
so the model returns the checked value itself. -/
def janet_get_kind (tag : JanetType) (argv : List JanetV) (n : Nat) : Except JanetError JanetV :=
  let x := argv.getD n .nil
  if janet_checktype x tag then .ok x
  else .error (.panicType n tag x)

/-- The opt half of the `DEFINE_GETTER` macro, translated with the
comparison exactly as written in the source: `if (argc >= n) return dflt`.
(When that test fails, `argc < n`, so the C code reads `argv[n]` out of
bounds; the model reads nil there.) -/
def janet_opt_kind (tag : JanetType) (argv : List JanetV) (argc n : Nat) (dflt : JanetV) :
    Except JanetError JanetV :=
  if argc ≥ n then .ok dflt
  else if janet_checktype (argv.getD n .nil) .nil then .ok dflt
  else janet_get_kind tag argv n

/-- `janet_checkint`: the value is a number whose double payload survives
a round trip through int32 (`janet_checkintrange`), i.e. it is integral
and within `[-2^31, 2^31)`. -/
def janet_checkint (x : JanetV) : Bool :=
  match x with
  | .number q => q.den = 1 && -(2 ^ 31) ≤ q.num && q.num < 2 ^ 31
  | _ => false

/-- `janet_unwrap_integer`: the int32 cast of the number payload. -/
def janet_unwrap_integer (x : JanetV) : Int :=
  match x with
  | .number q => q.num
  | _ => 0

/-- `janet_getinteger(argv, n)`. -/
def janet_getinteger (argv : List JanetV) (n : Nat) : Except JanetError Int :=
  let x := argv.getD n .nil
  if janet_checkint x then .ok (janet_unwrap_integer x)
  else .error (.badSlotInteger n x)

/-- `janet_optinteger(argv, argc, n, dflt)` — the hand-written opt getter,
whose bounds test `argc <= n` differs from the macro-generated one. -/
def janet_optinteger (argv : List JanetV) (argc n : Nat) (dflt : Int) : Except JanetError Int :=
  if argc ≤ n then .ok dflt
  else if janet_checktype (argv.getD n .nil) .nil then .ok dflt
  else janet_getinteger argv n

/-- `janet_gethalfrange(argv, n, length, which)`: one-sided slice bound,
negative values offset by `length + 1`, accepted range `[0, length]`. -/
def janet_gethalfrange (argv : List JanetV) (n : Nat) (length : Int) (which : String) :
    Except JanetError Int :=
  match janet_getinteger argv n with
  | .error e => .error e
  | .ok raw0 =>
    let raw := if raw0 < 0 then raw0 + length + 1 else raw0
    if raw < 0 ∨ raw > length then .error (.halfRangeOOR which raw length)
    else .ok raw

/-- `janet_getargindex(argv, n, length, which)`: element-position bound,
negative values offset by `length`, accept test `raw < 0 || raw > length`
exactly as in the source (its error message prints a half-open range). -/
def janet_getargindex (argv : List JanetV) (n : Nat) (length : Int) (which : String) :
    Except JanetError Int :=
  match janet_getinteger argv n with
  | .error e => .error e
  | .ok raw0 =>
    let raw := if raw0 < 0 then raw0 + length else raw0
    if raw < 0 ∨ raw > length then .error (.argIndexOOR which raw length)
    else .ok raw

/-- Slice result; `stop` models the C field `end` (a Lean keyword). -/
structure JanetRange where
  start : Int
  stop : Int
  deriving DecidableEq, Repr

/-- `janet_getslice(argc, argv)`.  The external `janet_length` (the item's
own length operation, which lives outside src/core/util.c) is passed as a
parameter `len`. -/
def janet_getslice (len : JanetV → Except JanetError Int) (argc : Nat) (argv : List JanetV) :
    Except JanetError JanetRange :=
  match janet_arity argc 1 3 with
  | .error e => .error e
  | .ok _ =>
    match len (argv.getD 0 .nil) with
    | .error e => .error e
    | .ok length =>
      if argc = 1 then .ok ⟨0, length⟩
      else if argc = 2 then
        match (if janet_checktype (argv.getD 1 .nil) .nil then .ok 0
               else janet_gethalfrange argv 1 length "start") with
        | .error e => .error e
        | .ok s => .ok ⟨s, length⟩
      else
        match (if janet_checktype (argv.getD 1 .nil) .nil then .ok 0
               else janet_gethalfrange argv 1 length "start") with
        | .error e => .error e
        | .ok s =>
          match (if janet_checktype (argv.getD 2 .nil) .nil then .ok length
                 else janet_gethalfrange argv 2 length "end") with
          | .error e => .error e
          | .ok e => .ok ⟨s, if e < s then s else e⟩

/-- Cast of a wrapped uint32 bit pattern to int32, as an `Int`. -/
def toInt32 (u : Nat) : Int :=
  if u % 2 ^ 32 < 2 ^ 31 then ((u % 2 ^ 32 : Nat) : Int)
  else ((u % 2 ^ 32 : Nat) : Int) - 2 ^ 32

/-- Cast of an int32 value to the uint32 it converts to in C. -/
def toUInt32nat (i : Int) : Nat := (i % 2 ^ 32).toNat

/-- One step of the uint32 djb2 loop body of `janet_string_calchash`:
`hash = (hash << 5) + hash + byte`, every operation wrapping mod 2^32. -/
def stringHashStep (h b : Nat) : Nat := ((h <<< 5) % 2 ^ 32 + h + b) % 2 ^ 32

/-- `janet_string_calchash(str, len)`: fold the djb2 loop over the bytes,
then cast the uint32 accumulator to int32. -/
def janet_string_calchash (str : List Nat) : Int :=
  toInt32 (str.foldl stringHashStep 5381)

/-- One step of `janet_array_calchash`: the int32 result of the external
`janet_hash` (passed as `jh`) is converted to uint32 and added. -/
def arrayHashStep (jh : JanetV → Int) (h : Nat) (v : JanetV) : Nat :=
  ((h <<< 5) % 2 ^ 32 + h + toUInt32nat (jh v)) % 2 ^ 32

/-- `janet_array_calchash(array, len)`, parameterised by the external
`janet_hash`. -/
def janet_array_calchash (jh : JanetV → Int) (arr : List JanetV) : Int :=
  toInt32 (arr.foldl (arrayHashStep jh) 5381)

/-- A key/value bucket of the open-addressed dictionary engine. -/
structure JanetKV where
  key : JanetV
  value : JanetV
  deriving DecidableEq, Repr

/-- The all-nil bucket (used as the out-of-range default for the index
reads that model C pointer arithmetic; in-range reads never use it). -/
def dfltKV : JanetKV := ⟨.nil, .nil⟩

/-- Bucket `i` of a backing array (models `buckets + i`; in-range in
every probe the developments below perform). -/
def bucketAt (b : List JanetKV) (i : Nat) : JanetKV := b.getD i dfltKV

/-- `janet_kv_calchash(kvs, len)`: per entry, fold in `hash(key)` then
`hash(value)`, parameterised by the external `janet_hash`. -/
def janet_kv_calchash (jh : JanetV → Int) (kvs : List JanetKV) : Int :=
  toInt32 (kvs.foldl
    (fun h kv => arrayHashStep jh (arrayHashStep jh h kv.key) kv.value) 5381)

/-- The five OR-with-shift smearing steps of `janet_tablen`, on the
nonnegative int32 bit pattern. -/
def tablenSmear (n : Nat) : Nat :=
  let n1 := n ||| (n >>> 1)
  let n2 := n1 ||| (n1 >>> 2)
  let n3 := n2 ||| (n2 >>> 4)
  let n4 := n3 ||| (n3 >>> 8)
  n4 ||| (n4 >>> 16)

/-- `janet_tablen(n)` for a nonnegative int32 argument: smear, then the
int32 increment `n + 1` (which wraps for `smear n = 2^31 - 1`). -/
def janet_tablen (n : Nat) : Int :=
  toInt32 (tablenSmear n + 1)

/-- The body of both probe loops of `janet_dict_find`, as a recursion on
the remaining iteration count (`count = stop - i` of the C `for` loop):
an empty bucket or a key match returns that bucket (`hit`), a tombstone is
recorded in `first_bucket` if it is the first, and loop exhaustion yields
the `first_bucket` state (`miss`). -/
inductive ProbeOut where
  | hit (i : Nat)
  | miss (fb : Option Nat)
  deriving DecidableEq, Repr

def probeLoop (b : List JanetKV) (key : JanetV) : Nat → Nat → Option Nat → ProbeOut
  | _, 0, fb => .miss fb
  | i, c + 1, fb =>
    let kv := bucketAt b i
    if kv.key = JanetV.nil then
      if kv.value = JanetV.nil then .hit i
      else probeLoop b key (i + 1) c (if fb = none then some i else fb)
    else if kv.key = key then .hit i
    else probeLoop b key (i + 1) c fb

/-- `janet_dict_find(buckets, cap, key)`: start at
`janet_maphash(cap, janet_hash(key)) = (uint32_t)hash & (cap - 1)`, probe
the higher half `[index, cap)` then the lower half `[0, index)`, threading
the `first_bucket` tombstone.  The external `janet_hash` (already cast to
uint32) is the parameter `jh`; the bucket pointer result is the index into
`b`, `none` standing for NULL. -/
def janet_dict_find (jh : JanetV → Nat) (b : List JanetKV) (key : JanetV) : Option Nat :=
  let cap := b.length
  let index := jh key &&& (cap - 1)
  match probeLoop b key index (cap - index) none with
  | .hit i => some i
  | .miss fb =>
    match probeLoop b key 0 index fb with
    | .hit i => some i
    | .miss fb2 => fb2

/-- Whether the scan stops at bucket `j` and returns it: the bucket is
empty, or its (non-nil) key equals the searched key — the branch order of
the loop body. -/
def dictStopper (b : List JanetKV) (key : JanetV) (j : Nat) : Bool :=
  let kv := bucketAt b j
  if kv.key = JanetV.nil then kv.value = JanetV.nil else kv.key = key

/-- Whether bucket `j` is a tombstone (nil key, non-nil value). -/
def dictTomb (b : List JanetKV) (j : Nat) : Bool :=
  let kv := bucketAt b j
  kv.key = JanetV.nil && kv.value ≠ JanetV.nil

/-- Modelled from the amended claim: the probe sequence visits
`index, index+1, …, cap-1, 0, 1, …, index-1`; the result is the first
bucket in that order that is empty or matches the key, and otherwise the
first tombstone in that order (`none` for NULL when there is neither). -/
def janet_dict_find_spec (jh : JanetV → Nat) (b : List JanetKV) (key : JanetV) : Option Nat :=
  let cap := b.length
  let index := jh key &&& (cap - 1)
  let ord := List.range' index (cap - index) ++ List.range' 0 index
  match ord.find? (dictStopper b key) with
  | some j => some j
  | none => ord.find? (dictTomb b)

/-- The scan loop of `janet_dictionary_next`, as a recursion on the
remaining bucket count: first bucket at index ≥ `i` with a non-nil key. -/
def nextLoop (kvs : List JanetKV) : Nat → Nat → Option Nat
  | _, 0 => none
  | i, c + 1 =>
    if (kvs.getD i dfltKV).key ≠ JanetV.nil then some i
    else nextLoop kvs (i + 1) c

/-- The start index of a `janet_dictionary_next` scan: NULL (`none`)
restarts from index 0, a bucket pointer starts just after that bucket. -/
def nextStart : Option Nat → Nat
  | none => 0
  | some i => i + 1

/-- `janet_dictionary_next(kvs, cap, kv)`. -/
def janet_dictionary_next (kvs : List JanetKV) (cap : Nat) (prev : Option Nat) : Option Nat :=
  nextLoop kvs (nextStart prev) (cap - nextStart prev)

/-- Driving `janet_dictionary_next` from a previous result until NULL,
with enough fuel; `fuel = cap` suffices since indices strictly increase. -/
def iterChain (kvs : List JanetKV) (cap : Nat) : Option Nat → Nat → List Nat
  | _, 0 => []
  | prev, fuel + 1 =>
    match janet_dictionary_next kvs cap prev with
    | none => []
    | some i => i :: iterChain kvs cap (some i) fuel

/-- `janet_cstrcmp(str, other)`: compare a janet string (`s`, with its
stored length) against a NUL-terminated C string (`other`, given as its
bytes before the terminator; reads past its end see the terminator 0).
Translated with the early `break` on a NUL in `other`. -/
def janet_cstrcmp : List Nat → List Nat → Int
  | [], other => if other.headD 0 = 0 then 0 else -1
  | ch :: s, other =>
    let k := other.headD 0
    if ch < k then -1
    else if ch > k then 1
    else if k = 0 then 0
    else janet_cstrcmp s other.tail

/-- `janet_getmethod(method, methods)`: scan the NULL-terminated method
table (name bytes, cfunction identity) and wrap the first cfunction whose
name compares equal to `method` under `janet_cstrcmp`; nil if none. -/
def janet_getmethod (method : List Nat) : List (List Nat × Nat) → JanetV
  | [] => .nil
  | (nm, cf) :: rest =>
    if janet_cstrcmp method nm = 0 then .cfunction cf
    else janet_getmethod method rest

/-- Modelled from the spec: the process-wide registry is a mutable
associative container (table.c is not under src/); `janet_table_get`
returns the bound value or nil. -/
def janet_table_get (t : List (JanetV × JanetV)) (k : JanetV) : JanetV :=
  match t.find? (fun p => p.1 = k) with
  | some p => p.2
  | none => .nil

/-- Modelled from the spec: `janet_table_put` binds `k` to `v`, replacing
an existing binding (values put by the registry code are never nil). -/
def janet_table_put (t : List (JanetV × JanetV)) (k v : JanetV) : List (JanetV × JanetV) :=
  match t with
  | [] => [(k, v)]
  | p :: rest => if p.1 = k then (k, v) :: rest else p :: janet_table_put rest k v

/-- An abstract type descriptor: its name bytes and its pointer identity
(type identity in janet is descriptor-pointer equality). -/
structure JanetAbstractType where
  name : List Nat
  id : Nat
  deriving DecidableEq, Repr

/-- The identity of the private static `type_wrap` descriptor
(`"core/type-info"`), distinct from every user descriptor registered in
the developments below. -/
def type_wrap_id : Nat := 0

/-- `janet_register_abstract_type(at)`: allocate the wrapper (no
observable effect before the check), panic if the symbol for `at->name`
is bound to anything non-nil in the registry, otherwise bind it to the
wrapper abstract value tagged with `type_wrap`. -/
def janet_register_abstract_type (reg : List (JanetV × JanetV)) (typ : JanetAbstractType) :
    Except JanetError (List (JanetV × JanetV)) :=
  let sym := JanetV.symbol typ.name
  if ¬(janet_checktype (janet_table_get reg sym) .nil) then
    .error (.registerConflict typ.name)
  else
    .ok (janet_table_put reg sym (JanetV.abstract type_wrap_id typ.id))

/-- `janet_get_abstract_type(key)`: nil binding means absent (`none`);
a binding that is not an abstract value of type `type_wrap` panics;
otherwise the wrapped descriptor identity is returned. -/
def janet_get_abstract_type (reg : List (JanetV × JanetV)) (key : JanetV) :
    Except JanetError (Option Nat) :=
  let twrap := janet_table_get reg key
  if janet_checktype twrap .nil then .ok none
  else
    match twrap with
    | .abstract ty id => if ty = type_wrap_id then .ok (some id) else .error .expectedAbstractType
    | _ => .error .expectedAbstractType

/-- Claim C7: `janet_arity(actual, min, max)` raises exactly when
`(min ≥ 0 and actual < min)` or `(max ≥ 0 and actual > max)` and returns
normally otherwise; a negative bound imposes no constraint, so
`janet_arity(3, 1, 2)` raises, `janet_arity(2, 1, 2)` returns normally,
and `janet_arity(0, -1, -1)` returns normally. -/
theorem C7_arity_raises_iff :
    (∀ actual min max : Int,
      (∃ e, janet_arity actual min max = .error e) ↔
        ((0 ≤ min ∧ actual < min) ∨ (0 ≤ max ∧ actual > max))) ∧
    (∃ e, janet_arity 3 1 2 = .error e) ∧
    janet_arity 2 1 2 = .ok () ∧
    janet_arity 0 (-1) (-1) = .ok () := by
  refine ⟨fun actual min max => ?_, ⟨.arityAtMost 2 3, rfl⟩, rfl, rfl⟩
  constructor
  · intro ⟨e, he⟩
    by_cases h1 : 0 ≤ min ∧ actual < min
    · exact .inl h1
    · by_cases h2 : 0 ≤ max ∧ actual > max
      · exact .inr h2
      · simp [janet_arity, h1, h2] at he
  · intro h
    by_cases h1 : 0 ≤ min ∧ actual < min
    · exact ⟨.arityAtLeast min actual, by simp [janet_arity, h1]⟩
    · rcases h with h | h2
      · exact absurd h h1
      · exact ⟨.arityAtMost max actual, by simp [janet_arity, h1, h2]⟩

/-- Claim C1 (code bug): the macro-generated `janet_opt<kind>` getters
test `argc >= n`, so they return the default for every in-bounds argument
position — here `janet_optboolean([5, true], argc = 2, n = 1, false)`
yields the default `false` although `argv[1]` is the non-nil boolean
`true`, where the claim (and the hand-written `janet_optinteger`, which
tests `argc <= n`) would return the value `janet_getboolean` extracts. -/
theorem C1_macro_opt_returns_default_for_present_arg :
    janet_opt_kind .boolean [.number 5, .boolean true] 2 1 (.boolean false)
      = .ok (.boolean false) ∧
    janet_get_kind .boolean [.number 5, .boolean true] 1 = .ok (.boolean true) ∧
    janet_optinteger [.number 5, .boolean true] 2 0 7 = .ok 5 ∧
    janet_optinteger [.number 5, .boolean true] 2 2 7 = .ok 7 := by
  refine ⟨rfl, rfl, ?_, rfl⟩
  have h5 : janet_checkint (.number 5) = true := by decide
  simp [janet_optinteger, janet_getinteger, janet_checktype, janet_type, h5,
    janet_unwrap_integer]

/-- Claim C5 (counterexample): with `length = 3`, `janet_getargindex` on
the integer `3` returns `3 = length` normally — the claim says a resolved
index equal to `length` raises — and on `-1` it resolves to `-1 + 3 = 2`,
not the `-1 + 3 + 1 = 3` that `janet_gethalfrange` produces, so the two
functions do not share the negative-wraparound rule. -/
theorem C5_argindex_counterexample :
    janet_getargindex [.number 3] 0 3 "x" = .ok 3 ∧
    janet_getargindex [.number (-1)] 0 3 "x" = .ok 2 ∧
    janet_gethalfrange [.number (-1)] 0 3 "x" = .ok 3 := by
  refine ⟨rfl, rfl, rfl⟩

/-- Claim C5 as amended: `janet_getargindex` reads an integer, offsets a
negative value by adding `length` (one less than `janet_gethalfrange`'s
`length + 1`), and raises unless the resolved index lies in the closed
range `[0, length]` — the same accepted range as `janet_gethalfrange`,
even though its error message names the half-open range `[0, length)`. -/
theorem C5_index_functions (argv : List JanetV) (n : Nat) (length : Int) (w : String)
    (raw : Int) (h : janet_getinteger argv n = .ok raw) :
    (∀ v, janet_getargindex argv n length w = .ok v ↔
      (0 ≤ v ∧ v ≤ length ∧ ((0 ≤ raw ∧ v = raw) ∨ (raw < 0 ∧ v = raw + length)))) ∧
    (∀ v, janet_gethalfrange argv n length w = .ok v ↔
      (0 ≤ v ∧ v ≤ length ∧ ((0 ≤ raw ∧ v = raw) ∨ (raw < 0 ∧ v = raw + length + 1)))) := by
  constructor <;> intro v <;>
    simp only [janet_getargindex, janet_gethalfrange, h] <;>
    by_cases hr : raw < 0 <;>
    simp only [hr, if_true, if_false, ite_true, ite_false] <;>
    split <;> simp_all <;> omega

theorem C5_index_functions_witness :
    janet_getinteger [JanetV.number 2] 0 = .ok 2 ∧
    (janet_getargindex [JanetV.number 2] 0 3 "x" = .ok 2 ↔
      (0 ≤ (2 : Int) ∧ (2 : Int) ≤ 3 ∧
        ((0 ≤ (2 : Int) ∧ (2 : Int) = 2) ∨ ((2 : Int) < 0 ∧ (2 : Int) = 2 + 3)))) :=
  ⟨rfl, (C5_index_functions [JanetV.number 2] 0 3 "x" 2 rfl).1 2⟩

/-- `janet_checktype` against `nil` holds exactly for the nil value. -/
theorem checktype_nil_iff (v : JanetV) : janet_checktype v .nil = true ↔ v = .nil := by
  cases v <;> simp [janet_checktype, janet_type]

/-- Claim C4 (counterexample): after registering the descriptor with name
`[112]` and identity 1, registering the very same descriptor again raises
the registry-conflict panic — the claim says re-registering the same
descriptor pointer inserts instead of raising. -/
theorem C4_register_counterexample :
    janet_register_abstract_type [] ⟨[112], 1⟩
      = .ok [(JanetV.symbol [112], JanetV.abstract type_wrap_id 1)] ∧
    janet_register_abstract_type
        [(JanetV.symbol [112], JanetV.abstract type_wrap_id 1)] ⟨[112], 1⟩
      = .error (.registerConflict [112]) :=
  ⟨rfl, rfl⟩

/-- Claim C4 as amended: `janet_register_abstract_type(at)` raises the
registry-conflict error exactly when the registry binds the symbol for
`at->name` to any non-nil value — including when the same descriptor
pointer is already registered, or when the name is bound to a
non-descriptor registry entry; in every other case it binds that symbol
to an opaque wrapper value tagged with the private `core/type-info`
marker type and holding the descriptor. -/
theorem C4_register_characterization (reg : List (JanetV × JanetV)) (typ : JanetAbstractType) :
    ((∃ e, janet_register_abstract_type reg typ = .error e) ↔
      janet_table_get reg (.symbol typ.name) ≠ .nil) ∧
    (janet_table_get reg (.symbol typ.name) = .nil →
      janet_register_abstract_type reg typ =
        .ok (janet_table_put reg (.symbol typ.name) (.abstract type_wrap_id typ.id))) := by
  by_cases h : janet_table_get reg (.symbol typ.name) = .nil
  · have hc : janet_checktype (janet_table_get reg (.symbol typ.name)) .nil = true :=
      (checktype_nil_iff _).mpr h
    refine ⟨⟨fun ⟨e, he⟩ => ?_, fun hne => absurd h hne⟩, fun _ => ?_⟩
    · simp [janet_register_abstract_type, hc] at he
    · simp [janet_register_abstract_type, hc]
  · have hc : ¬ janet_checktype (janet_table_get reg (.symbol typ.name)) .nil = true :=
      fun hx => h ((checktype_nil_iff _).mp hx)
    refine ⟨⟨fun _ => h, fun _ => ?_⟩, fun hnil => absurd hnil h⟩
    exact ⟨.registerConflict typ.name, by simp [janet_register_abstract_type, hc]⟩

theorem C4_register_characterization_witness :
    janet_table_get [] (JanetV.symbol [113]) = .nil ∧
    janet_register_abstract_type [] ⟨[113], 2⟩ =
      .ok (janet_table_put [] (JanetV.symbol [113]) (.abstract type_wrap_id 2)) :=
  ⟨rfl, (C4_register_characterization [] ⟨[113], 2⟩).2 rfl⟩

/-- `janet_cstrcmp` on a janet string with exactly the C string's bytes. -/
theorem cstrcmp_self (c : List Nat) : janet_cstrcmp c c = 0 := by
  induction c with
  | nil => simp [janet_cstrcmp]
  | cons b c' ih =>
    by_cases hb : b = 0 <;> simp [janet_cstrcmp, hb, ih]

/-- `janet_cstrcmp` on a janet string that extends the C string with a
NUL byte and arbitrary trailing bytes. -/
theorem cstrcmp_prefix_nul (c rest : List Nat) : janet_cstrcmp (c ++ 0 :: rest) c = 0 := by
  induction c with
  | nil => simp [janet_cstrcmp]
  | cons b c' ih =>
    by_cases hb : b = 0 <;> simp [janet_cstrcmp, hb, ih]

/-- Claim C10: `janet_cstrcmp(s, c)` returns 0 when the bytes of `s` are
exactly the bytes of `c`, and also when `c` is a strict prefix of `s`
with the byte of `s` at index `strlen(c)` being NUL; consequently
`janet_getmethod` reports a match (the entry's cfunction) for a lookup
key that extends a table entry's name with an embedded NUL byte and
arbitrary trailing bytes. -/
theorem C10_cstrcmp_embedded_nul (nm trailing : List Nat) (cf : Nat)
    (rest : List (List Nat × Nat)) (hnm : 0 ∉ nm) :
    janet_cstrcmp nm nm = 0 ∧
    janet_cstrcmp (nm ++ 0 :: trailing) nm = 0 ∧
    janet_getmethod (nm ++ 0 :: trailing) ((nm, cf) :: rest) = .cfunction cf := by
  refine ⟨cstrcmp_self nm, cstrcmp_prefix_nul nm trailing, ?_⟩
  simp [janet_getmethod, cstrcmp_prefix_nul nm trailing]

theorem C10_cstrcmp_embedded_nul_witness :
    (0 : Nat) ∉ [97] ∧
    janet_getmethod ([97] ++ 0 :: [98]) [([97], 7)] = .cfunction 7 :=
  ⟨by decide, (C10_cstrcmp_embedded_nul [97] [98] 7 [] (by decide)).2.2⟩

/-- The uint32 loop body `(hash << 5) + hash + b` is the djb2 recurrence
`hash * 33 + b` wrapped to 32 bits. -/
theorem stringHashStep_eq (h b : Nat) : stringHashStep h b = (h * 33 + b) % 2 ^ 32 := by
  simp only [stringHashStep, Nat.shiftLeft_eq]
  rw [Nat.add_assoc, Nat.mod_add_mod]
  congr 1
  omega

/-- Same for the value-hash loop body, with the int32-to-uint32 cast of
the external hash. -/
theorem arrayHashStep_eq (jh : JanetV → Int) (h : Nat) (v : JanetV) :
    arrayHashStep jh h v = (h * 33 + toUInt32nat (jh v)) % 2 ^ 32 := by
  simp only [arrayHashStep, Nat.shiftLeft_eq]
  rw [Nat.add_assoc, Nat.mod_add_mod]
  congr 1
  omega

/-- Claim C8: `janet_string_calchash` folds the djb2 recurrence
`h = h * 33 + byte` (seed 5381, wrapping mod 2^32) over the raw bytes in
order; `janet_array_calchash` folds the same recurrence over
`hash(element)` in storage order; `janet_kv_calchash` folds it over
`hash(key)` then `hash(value)` of each entry in storage order. -/
theorem C8_calchash_djb2 :
    (∀ str : List Nat, janet_string_calchash str =
      toInt32 (str.foldl (fun h b => (h * 33 + b) % 2 ^ 32) 5381)) ∧
    (∀ (jh : JanetV → Int) (arr : List JanetV), janet_array_calchash jh arr =
      toInt32 (arr.foldl (fun h v => (h * 33 + toUInt32nat (jh v)) % 2 ^ 32) 5381)) ∧
    (∀ (jh : JanetV → Int) (kvs : List JanetKV), janet_kv_calchash jh kvs =
      toInt32 (kvs.foldl (fun h kv =>
        ((h * 33 + toUInt32nat (jh kv.key)) % 2 ^ 32 * 33 + toUInt32nat (jh kv.value)) % 2 ^ 32)
        5381)) := by
  have hs : stringHashStep = fun h b => (h * 33 + b) % 2 ^ 32 :=
    funext fun h => funext fun b => stringHashStep_eq h b
  have ha : ∀ jh, arrayHashStep jh = fun h v => (h * 33 + toUInt32nat (jh v)) % 2 ^ 32 :=
    fun jh => funext fun h => funext fun v => arrayHashStep_eq jh h v
  refine ⟨fun str => ?_, fun jh arr => ?_, fun jh kvs => ?_⟩
  · rw [janet_string_calchash, hs]
  · rw [janet_array_calchash, ha]
  · rw [janet_kv_calchash]
    simp only [ha]

/-- Bucket `j` is occupied (non-nil key). -/
def occPred (kvs : List JanetKV) (j : Nat) : Bool :=
  decide ((kvs.getD j dfltKV).key ≠ JanetV.nil)

/-- The `janet_dictionary_next` scan loop returns the first occupied
index in `[i, i + c)`. -/
theorem nextLoop_eq_find (kvs : List JanetKV) :
    ∀ (c i : Nat), nextLoop kvs i c = (List.range' i c).find? (occPred kvs) := by
  intro c
  induction c with
  | zero => intro i; rfl
  | succ c ih =>
    intro i
    rw [List.range'_succ]
    by_cases hp : (kvs[i]?.getD dfltKV).key = JanetV.nil
    · simp [nextLoop, List.getD, hp, occPred, ih]
    · simp [nextLoop, List.getD, hp, occPred]

/-- Decomposing a `filter` over an index range at the first hit that
`find?` reports. -/
theorem filter_range'_find?_some (p : Nat → Bool) :
    ∀ (n s j : Nat), (List.range' s n).find? p = some j →
      (List.range' s n).filter p = j :: (List.range' (j + 1) (s + n - (j + 1))).filter p := by
  intro n
  induction n with
  | zero => intro s j h; simp at h
  | succ n ih =>
    intro s j h
    rw [List.range'_succ] at h ⊢
    by_cases hp : p s
    · rw [List.find?_cons_of_pos _ hp] at h
      obtain rfl : s = j := by simpa using h
      have hn : s + (n + 1) - (s + 1) = n := by omega
      rw [List.filter_cons_of_pos hp, hn]
    · rw [List.find?_cons_of_neg _ hp] at h
      rw [List.filter_cons_of_neg hp, ih (s + 1) j h]
      have hn : s + 1 + n - (j + 1) = s + (n + 1) - (j + 1) := by omega
      rw [hn]

/-- Driving `janet_dictionary_next` until NULL, starting at any scan
position, lists exactly the occupied indices of the rest of the array in
increasing order (given fuel at least the remaining bucket count). -/
theorem iterChain_eq (kvs : List JanetKV) (cap : Nat) :
    ∀ (d : Nat) (prev : Option Nat) (f : Nat), cap - nextStart prev = d → d ≤ f →
      iterChain kvs cap prev f = (List.range' (nextStart prev) d).filter (occPred kvs) := by
  intro d
  induction d using Nat.strong_induction_on with
  | h d ihd =>
    intro prev f hd hf
    cases d with
    | zero =>
      cases f with
      | zero => rfl
      | succ f' => simp [iterChain, janet_dictionary_next, hd, nextLoop]
    | succ d' =>
      cases f with
      | zero => omega
      | succ f' =>
        have hcapgt : nextStart prev < cap := by omega
        have hnext : janet_dictionary_next kvs cap prev =
            (List.range' (nextStart prev) (d' + 1)).find? (occPred kvs) := by
          rw [janet_dictionary_next, hd, nextLoop_eq_find]
        cases hcase : (List.range' (nextStart prev) (d' + 1)).find? (occPred kvs) with
        | none =>
          have hfil : (List.range' (nextStart prev) (d' + 1)).filter (occPred kvs) = [] := by
            rw [List.filter_eq_nil_iff]
            intro a ha
            simpa using List.find?_eq_none.mp hcase a ha
          simp [iterChain, hnext, hcase, hfil]
        | some j =>
          have hmem := List.mem_of_find?_eq_some hcase
          have hjb : nextStart prev ≤ j ∧ j < nextStart prev + (d' + 1) := by
            obtain ⟨i, hi, hji⟩ := List.mem_range'.mp hmem
            simp only [Nat.one_mul] at hji
            omega
          have hdecomp := filter_range'_find?_some (occPred kvs) (d' + 1) (nextStart prev) j hcase
          have hd2 : cap - (j + 1) < d' + 1 := by omega
          have ih2 := ihd (cap - (j + 1)) hd2 (some j) f' rfl (by omega)
          simp only [iterChain, hnext, hcase]
          rw [ih2, hdecomp]
          have hn : nextStart prev + (d' + 1) - (j + 1) = cap - (j + 1) := by omega
          rw [hn]
          rfl

/-- Claim C9: `janet_dictionary_next(kvs, cap, NULL)` returns the first
occupied bucket (non-nil key) at index 0 or later; with a previous bucket
it returns the first occupied bucket strictly after it; it returns NULL
when no such bucket exists (`find?` over the remaining index range being
exactly that specification); and iterating from NULL until NULL yields
exactly the occupied indices, each once, in increasing storage order
(the `filter` of the index range). -/
theorem C9_dictionary_next_iterates_occupied (kvs : List JanetKV) (cap : Nat) :
    janet_dictionary_next kvs cap none = (List.range' 0 cap).find? (occPred kvs) ∧
    (∀ i, janet_dictionary_next kvs cap (some i) =
      (List.range' (i + 1) (cap - (i + 1))).find? (occPred kvs)) ∧
    iterChain kvs cap none cap = (List.range cap).filter (occPred kvs) := by
  refine ⟨?_, fun i => ?_, ?_⟩
  · rw [janet_dictionary_next, nextLoop_eq_find]
    rfl
  · rw [janet_dictionary_next, nextLoop_eq_find]
    rfl
  · rw [List.range_eq_range', iterChain_eq kvs cap cap none cap rfl (Nat.le_refl cap)]
    rfl

/-- Each probe loop of `janet_dict_find` returns `hit` at the first
bucket of its index range that is empty or key-matching, and otherwise
`miss` carrying the incoming `first_bucket` if set, else the first
tombstone of the range. -/
theorem probeLoop_eq (b : List JanetKV) (key : JanetV) :
    ∀ (c i : Nat) (fb : Option Nat),
      probeLoop b key i c fb =
        match (List.range' i c).find? (dictStopper b key) with
        | some j => .hit j
        | none => .miss (fb.or ((List.range' i c).find? (dictTomb b))) := by
  intro c
  induction c with
  | zero => intro i fb; simp [probeLoop]
  | succ c ih =>
    intro i fb
    rw [List.range'_succ]
    by_cases hk : (bucketAt b i).key = JanetV.nil
    · by_cases hv : (bucketAt b i).value = JanetV.nil
      · have hstop : dictStopper b key i = true := by
          simp only [dictStopper]
          rw [if_pos hk]
          simp [hv]
        simp only [probeLoop]
        rw [if_pos hk, if_pos hv, List.find?_cons_of_pos _ (by simp [hstop])]
      · have hstop : ¬ (dictStopper b key i = true) := by
          simp only [dictStopper]
          rw [if_pos hk]
          simp [hv]
        have htomb : dictTomb b i = true := by
          simp only [dictTomb]
          simp [hk, hv]
        simp only [probeLoop]
        rw [if_pos hk, if_neg hv, ih,
          List.find?_cons_of_neg _ hstop, List.find?_cons_of_pos _ (by simp [htomb])]
        cases hfind : (List.range' (i + 1) c).find? (dictStopper b key) with
        | some j => simp
        | none => cases fb <;> simp [Option.or]
    · by_cases he : (bucketAt b i).key = key
      · have hstop : dictStopper b key i = true := by
          simp only [dictStopper]
          rw [if_neg hk]
          simp [he]
        simp only [probeLoop]
        rw [if_neg hk, if_pos he, List.find?_cons_of_pos _ (by simp [hstop])]
      · have hstop : ¬ (dictStopper b key i = true) := by
          simp only [dictStopper]
          rw [if_neg hk]
          simp [he]
        have htomb : ¬ (dictTomb b i = true) := by
          simp only [dictTomb]
          simp [hk]
        simp only [probeLoop]
        rw [if_neg hk, if_neg he, ih,
          List.find?_cons_of_neg _ hstop, List.find?_cons_of_neg _ htomb]

/-- Claim C3 (counterexample): with capacity `2 = 2^1`, hash 0, bucket 0 a
tombstone and bucket 1 empty, the scan records the tombstone at index 0
and then reaches the empty bucket at index 1 — and `janet_dict_find`
returns the empty bucket (index 1), not the earlier tombstone (index 0)
that the claim says must be returned. -/
theorem C3_dict_find_counterexample :
    janet_dict_find (fun _ => 0) [⟨.nil, .number 1⟩, ⟨.nil, .nil⟩] (.boolean true) = some 1 ∧
    dictTomb [⟨.nil, .number 1⟩, ⟨.nil, .nil⟩] 0 = true ∧
    dictStopper [⟨.nil, .number 1⟩, ⟨.nil, .nil⟩] (.boolean true) 1 = true ∧
    (0 : Nat) &&& (2 - 1) = 0 :=
  ⟨rfl, rfl, rfl, rfl⟩

/-- Claim C3 as amended: `janet_dict_find` scans forward from
`hash(key) & (cap - 1)` to the end of the array, then from index 0 back
to that index; an occupied bucket with an equal key, or an empty bucket,
terminates the scan and is returned (an empty bucket is returned even
when a tombstone was seen earlier); a tombstone is remembered (first one
only) and skipped; when the whole circular scan finds neither a match
nor an empty bucket, the remembered first tombstone is returned, or NULL
if none — i.e. the function refines `janet_dict_find_spec`. -/
theorem C3_dict_find_refines_scan_spec (jh : JanetV → Nat) (b : List JanetKV) (key : JanetV) :
    janet_dict_find jh b key = janet_dict_find_spec jh b key := by
  simp only [janet_dict_find, janet_dict_find_spec, probeLoop_eq, List.find?_append]
  cases h1 : (List.range' (jh key &&& (b.length - 1)) (b.length - (jh key &&& (b.length - 1)))).find?
      (dictStopper b key) with
  | some j => simp [h1]
  | none =>
    simp only [h1, Option.none_or]
    cases h2 : (List.range' 0 (jh key &&& (b.length - 1))).find? (dictStopper b key) with
    | some j => simp [h2]
    | none =>
      simp only [h2, Option.none_or]

/-- A successful `janet_gethalfrange` result lies in `[0, length]`. -/
theorem gethalfrange_ok_bounds (argv : List JanetV) (n : Nat) (length : Int) (w : String)
    (v : Int) (h : janet_gethalfrange argv n length w = .ok v) : 0 ≤ v ∧ v ≤ length := by
  rw [janet_gethalfrange] at h
  cases hg : janet_getinteger argv n with
  | error e => rw [hg] at h; exact absurd h (by simp)
  | ok raw0 =>
    rw [hg] at h
    simp only at h
    by_cases hneg : raw0 < 0
    · simp only [hneg, ite_true] at h
      by_cases hr : raw0 + length + 1 < 0 ∨ raw0 + length + 1 > length
      · simp [hr] at h
      · simp only [hr, ite_false] at h
        obtain rfl : raw0 + length + 1 = v := by simpa using h
        omega
    · simp only [hneg, ite_false, false_or] at h
      by_cases hr : length < raw0
      · simp [hr] at h
      · simp only [hr, ite_false] at h
        obtain rfl : raw0 = v := by simpa using h
        omega

/-- Claim C6: `janet_getslice(argc, argv)` on an item of length `L`:
`argc` outside 1..3 raises an arity error; one argument yields `[0, L)`;
with two arguments, start is 0 when `argv[1]` is nil and otherwise
resolved by `janet_gethalfrange` (errors included), and end is `L`
(`start = -1` yields `[L, L)`); with three arguments, end is `L` when
`argv[2]` is nil and otherwise resolved by `janet_gethalfrange`, and a
resolved end below the resolved start is clamped up to the start
(`max`), so a returned range never has negative width. -/
theorem C6_getslice_ranges (len : JanetV → Except JanetError Int) (argc : Nat)
    (argv : List JanetV) (L : Int) (hL : len (argv.getD 0 .nil) = .ok L) (hL0 : 0 ≤ L) :
    ((argc = 0 ∨ 3 < argc) → ∃ e, janet_getslice len argc argv = .error e) ∧
    (argc = 1 → janet_getslice len argc argv = .ok ⟨0, L⟩) ∧
    (argc = 2 → janet_getslice len argc argv =
      match (if janet_checktype (argv.getD 1 .nil) .nil then Except.ok 0
             else janet_gethalfrange argv 1 L "start") with
      | .error e => .error e
      | .ok s => .ok ⟨s, L⟩) ∧
    (argc = 3 → janet_getslice len argc argv =
      match (if janet_checktype (argv.getD 1 .nil) .nil then Except.ok 0
             else janet_gethalfrange argv 1 L "start") with
      | .error e => .error e
      | .ok s =>
        match (if janet_checktype (argv.getD 2 .nil) .nil then Except.ok L
               else janet_gethalfrange argv 2 L "end") with
        | .error e => .error e
        | .ok e2 => .ok ⟨s, max s e2⟩) ∧
    (argc = 2 → argv.getD 1 .nil = .number (-1) → janet_getslice len argc argv = .ok ⟨L, L⟩) ∧
    (∀ r, janet_getslice len argc argv = .ok r → r.start ≤ r.stop) := by
  have hmax : ∀ s e2 : Int, (if e2 < s then s else e2) = max s e2 := by
    intro s e2
    rcases lt_or_le e2 s with h | h
    · rw [if_pos h]; omega
    · rw [if_neg (not_lt.mpr h)]; omega
  have c1 : (argc = 0 ∨ 3 < argc) → ∃ e, janet_getslice len argc argv = .error e := by
    rintro (rfl | hgt)
    · exact ⟨.arityAtLeast 1 0, rfl⟩
    · refine ⟨.arityAtMost 3 argc, ?_⟩
      have hc1 : ¬((0 : Int) ≤ 1 ∧ (argc : Int) < 1) := by push_cast; omega
      have hc2 : (0 : Int) ≤ 3 ∧ (argc : Int) > 3 := ⟨by norm_num, by exact_mod_cast hgt⟩
      have ha : janet_arity (argc : Int) 1 3 = .error (.arityAtMost 3 argc) := by
        rw [janet_arity, if_neg hc1, if_pos hc2]
      rw [janet_getslice, ha]
  have c2 : argc = 1 → janet_getslice len argc argv = .ok ⟨0, L⟩ := by
    rintro rfl
    rw [janet_getslice]
    show (match len (argv.getD 0 .nil) with
      | Except.error e => Except.error e
      | Except.ok length => Except.ok (⟨0, length⟩ : JanetRange)) = Except.ok ⟨0, L⟩
    rw [hL]
  have c3 : argc = 2 → janet_getslice len argc argv =
      match (if janet_checktype (argv.getD 1 .nil) .nil then Except.ok 0
             else janet_gethalfrange argv 1 L "start") with
      | .error e => .error e
      | .ok s => .ok ⟨s, L⟩ := by
    rintro rfl
    rw [janet_getslice]
    show (match len (argv.getD 0 .nil) with
      | Except.error e => Except.error e
      | Except.ok length =>
        match (if janet_checktype (argv.getD 1 .nil) .nil then Except.ok 0
               else janet_gethalfrange argv 1 length "start") with
        | Except.error e => Except.error e
        | Except.ok s => Except.ok (⟨s, length⟩ : JanetRange)) = _
    rw [hL]
  have c4 : argc = 3 → janet_getslice len argc argv =
      match (if janet_checktype (argv.getD 1 .nil) .nil then Except.ok 0
             else janet_gethalfrange argv 1 L "start") with
      | .error e => .error e
      | .ok s =>
        match (if janet_checktype (argv.getD 2 .nil) .nil then Except.ok L
               else janet_gethalfrange argv 2 L "end") with
        | .error e => .error e
        | .ok e2 => .ok ⟨s, max s e2⟩ := by
    rintro rfl
    rw [janet_getslice]
    show (match len (argv.getD 0 .nil) with
      | Except.error e => Except.error e
      | Except.ok length =>
        match (if janet_checktype (argv.getD 1 .nil) .nil then Except.ok 0
               else janet_gethalfrange argv 1 length "start") with
        | Except.error e => Except.error e
        | Except.ok s =>
          match (if janet_checktype (argv.getD 2 .nil) .nil then Except.ok length
                 else janet_gethalfrange argv 2 length "end") with
          | Except.error e => Except.error e
          | Except.ok e2 => Except.ok (⟨s, if e2 < s then s else e2⟩ : JanetRange)) = _
    rw [hL]
    show (match (if janet_checktype (argv.getD 1 .nil) .nil then Except.ok 0
               else janet_gethalfrange argv 1 L "start") with
      | Except.error e => Except.error e
      | Except.ok s =>
        match (if janet_checktype (argv.getD 2 .nil) .nil then Except.ok L
               else janet_gethalfrange argv 2 L "end") with
        | Except.error e => Except.error e
        | Except.ok e2 => Except.ok (⟨s, if e2 < s then s else e2⟩ : JanetRange)) = _
    cases hs : (if janet_checktype (argv.getD 1 .nil) .nil then Except.ok 0
             else janet_gethalfrange argv 1 L "start") with
    | error e => rfl
    | ok s =>
      cases he2 : (if janet_checktype (argv.getD 2 .nil) .nil then Except.ok L
             else janet_gethalfrange argv 2 L "end") with
      | error e => rfl
      | ok e2 =>
        show Except.ok (⟨s, if e2 < s then s else e2⟩ : JanetRange) = _
        rw [hmax]
  have c5 : argc = 2 → argv.getD 1 .nil = .number (-1) →
      janet_getslice len argc argv = .ok ⟨L, L⟩ := by
    rintro rfl h1
    have hnil : janet_checktype (argv.getD 1 .nil) .nil = false := by
      rw [h1]; rfl
    have hgi : janet_getinteger argv 1 = .ok (-1) := by
      rw [janet_getinteger, h1]
      rfl
    have hhr : janet_gethalfrange argv 1 L "start" = .ok L := by
      rw [janet_gethalfrange, hgi]
      show (if ((-1 : Int) + L + 1 < 0 ∨ (-1 : Int) + L + 1 > L) then
          Except.error (JanetError.halfRangeOOR "start" ((-1 : Int) + L + 1) L)
        else Except.ok ((-1 : Int) + L + 1)) = _
      rw [if_neg (by omega : ¬((-1 : Int) + L + 1 < 0 ∨ (-1 : Int) + L + 1 > L))]
      congr 1
      omega
    rw [c3 rfl,
      if_neg (show ¬(janet_checktype (argv.getD 1 .nil) .nil = true) by
        rw [hnil]; exact Bool.false_ne_true), hhr]
  have c6 : ∀ r, janet_getslice len argc argv = .ok r → r.start ≤ r.stop := by
    intro r hr
    by_cases h1 : argc = 1
    · rw [c2 h1] at hr
      obtain rfl : (⟨0, L⟩ : JanetRange) = r := by simpa using hr
      simpa using hL0
    · by_cases h2 : argc = 2
      · rw [c3 h2] at hr
        by_cases hnil : janet_checktype (argv.getD 1 .nil) .nil
        · rw [if_pos hnil] at hr
          obtain rfl : (⟨0, L⟩ : JanetRange) = r := by simpa using hr
          simpa using hL0
        · rw [if_neg hnil] at hr
          cases hs : janet_gethalfrange argv 1 L "start" with
          | error e => rw [hs] at hr; exact absurd hr (by simp)
          | ok s =>
            rw [hs] at hr
            obtain rfl : (⟨s, L⟩ : JanetRange) = r := by simpa using hr
            simpa using (gethalfrange_ok_bounds argv 1 L "start" s hs).2
      · by_cases h3 : argc = 3
        · rw [c4 h3] at hr
          cases hs : (if janet_checktype (argv.getD 1 .nil) .nil then Except.ok 0
              else janet_gethalfrange argv 1 L "start") with
          | error e => rw [hs] at hr; exact absurd hr (by simp)
          | ok s =>
            rw [hs] at hr
            cases he2 : (if janet_checktype (argv.getD 2 .nil) .nil then Except.ok L
                else janet_gethalfrange argv 2 L "end") with
            | error e => rw [he2] at hr; exact absurd hr (by simp)
            | ok e2 =>
              rw [he2] at hr
              obtain rfl : (⟨s, max s e2⟩ : JanetRange) = r := by simpa using hr
              simpa using le_max_left s e2
        · obtain ⟨e, he⟩ := c1 (by omega)
          rw [he] at hr
          exact absurd hr (by simp)
  exact ⟨c1, c2, c3, c4, c5, c6⟩

theorem C6_getslice_ranges_witness :
    (fun _ : JanetV => (Except.ok 3 : Except JanetError Int)) (([] : List JanetV).getD 0 .nil)
        = .ok 3 ∧
    (0 : Int) ≤ 3 ∧
    janet_getslice (fun _ => (Except.ok 3 : Except JanetError Int)) 1 [] = .ok ⟨0, 3⟩ :=
  ⟨rfl, by omega,
    (C6_getslice_ranges (fun _ => (Except.ok 3 : Except JanetError Int)) 1 [] 3 rfl
      (by omega)).2.1 rfl⟩

/-- The top bit of a number bracketed between consecutive powers of two. -/
theorem testBit_top (n t : Nat) (h1 : 2 ^ t ≤ n) (h2 : n < 2 ^ (t + 1)) :
    n.testBit t = true := by
  rw [Nat.testBit_to_div_mod]
  have hdiv : n / 2 ^ t = 1 := by
    refine Nat.div_eq_of_lt_le (by simpa using h1) ?_
    have : (1 + 1) * 2 ^ t = 2 ^ (t + 1) := by ring
    omega
  simp [hdiv]

/-- One OR-with-shift step extends a run of set bits `[a, t]` downward to
`[a - d, t]`. -/
theorem orShift_allSet (m t a d : Nat)
    (h : ∀ j, a ≤ j → j ≤ t → m.testBit j = true)
    (hd : 0 < a → a + d ≤ t + 1) :
    ∀ j, a - d ≤ j → j ≤ t → (m ||| (m >>> d)).testBit j = true := by
  intro j hj1 hj2
  rw [Nat.testBit_or]
  by_cases ha : a ≤ j
  · rw [h j ha hj2]
    simp
  · push_neg at ha
    have hpos : 0 < a := by omega
    have he1 : a ≤ d + j := by omega
    have he2 : d + j ≤ t := by
      have := hd hpos
      omega
    rw [Nat.testBit_shiftRight, h (d + j) he1 he2]
    simp

/-- One OR-with-shift step preserves an upper bound `2^s`. -/
theorem orShift_lt (m s d : Nat) (h : m < 2 ^ s) : m ||| (m >>> d) < 2 ^ s :=
  Nat.or_lt_two_pow h
    (lt_of_le_of_lt (by rw [Nat.shiftRight_eq_div_pow]; exact Nat.div_le_self m (2 ^ d)) h)

/-- The five smearing steps of `janet_tablen` turn any `n` with top bit
`t ≤ 31` into the all-ones pattern `2^(t+1) - 1`. -/
theorem tablenSmear_eq (n t : Nat) (h1 : 2 ^ t ≤ n) (h2 : n < 2 ^ (t + 1)) (ht : t ≤ 31) :
    tablenSmear n = 2 ^ (t + 1) - 1 := by
  have s0 : ∀ j, t ≤ j → j ≤ t → n.testBit j = true := by
    intro j hj1 hj2
    rw [Nat.le_antisymm hj2 hj1]
    exact testBit_top n t h1 h2
  have s1 := orShift_allSet n t t 1 s0 (by omega)
  have s2 := orShift_allSet (n ||| (n >>> 1)) t (t - 1) 2 s1 (by omega)
  have s3 := orShift_allSet ((n ||| (n >>> 1)) ||| ((n ||| (n >>> 1)) >>> 2)) t (t - 1 - 2) 4 s2
    (by omega)
  have s4 := orShift_allSet _ t (t - 1 - 2 - 4) 8 s3 (by omega)
  have s5 := orShift_allSet _ t (t - 1 - 2 - 4 - 8) 16 s4 (by omega)
  have hall : ∀ j, j ≤ t → (tablenSmear n).testBit j = true := by
    intro j hj
    exact s5 j (by omega) hj
  have hlt : tablenSmear n < 2 ^ (t + 1) :=
    orShift_lt _ _ 16 (orShift_lt _ _ 8 (orShift_lt _ _ 4 (orShift_lt _ _ 2
      (orShift_lt _ _ 1 h2))))
  refine Nat.eq_of_testBit_eq fun i => ?_
  by_cases hi : i ≤ t
  · rw [hall i hi, Nat.testBit_two_pow_sub_one]
    simp
    omega
  · rw [Nat.testBit_lt_two_pow, Nat.testBit_two_pow_sub_one]
    · simp
      omega
    · calc tablenSmear n < 2 ^ (t + 1) := hlt
        _ ≤ 2 ^ i := Nat.pow_le_pow_right (by omega) (by omega)

/-- Claim C2 (counterexample): `janet_tablen 1 = 2` and `janet_tablen 4
= 8`, not the claimed smallest power of two ≥ n (which would be 1 and 4);
`janet_tablen 0 = 1`, not the claimed 0 (the source's own comment also
says 0); and at `n = 2^30` the int32 increment overflows to `-2^31`. -/
theorem C2_tablen_counterexample :
    janet_tablen 1 = 2 ∧ janet_tablen 4 = 8 ∧ janet_tablen 0 = 1 ∧
    janet_tablen (2 ^ 30) = -(2 ^ 31) := by
  refine ⟨?_, ?_, ?_, ?_⟩ <;> decide

/-- Claim C2 as amended: for `0 < n < 2^30` (bracketed as
`2^t ≤ n < 2^(t+1)` with `t < 30`), `janet_tablen n` is the smallest
power of two strictly greater than `n` — a power of two, greater than
`n`, and no larger than any power of two exceeding `n`; `janet_tablen 0`
is 1; for `n ≥ 2^30` the int32 increment overflows. -/
theorem C2_tablen_next_pow2 (n t : Nat) (h1 : 2 ^ t ≤ n) (h2 : n < 2 ^ (t + 1))
    (ht : t < 30) :
    janet_tablen n = ((2 ^ (t + 1) : Nat) : Int) ∧
    (n : Int) < janet_tablen n ∧
    (∀ k : Nat, n < 2 ^ k → janet_tablen n ≤ ((2 ^ k : Nat) : Int)) ∧
    janet_tablen 0 = 1 := by
  have hs := tablenSmear_eq n t h1 h2 (by omega)
  have hone : 1 ≤ 2 ^ (t + 1) := Nat.one_le_two_pow
  have hsum : tablenSmear n + 1 = 2 ^ (t + 1) := by omega
  have hword : 2 ^ (t + 1) < 2 ^ 32 := by
    calc (2 : Nat) ^ (t + 1) ≤ 2 ^ 30 := Nat.pow_le_pow_right (by omega) (by omega)
      _ < 2 ^ 32 := by norm_num
  have hhalf : 2 ^ (t + 1) < 2 ^ 31 := by
    calc (2 : Nat) ^ (t + 1) ≤ 2 ^ 30 := Nat.pow_le_pow_right (by omega) (by omega)
      _ < 2 ^ 31 := by norm_num
  have hval : janet_tablen n = ((2 ^ (t + 1) : Nat) : Int) := by
    rw [janet_tablen, hsum, toInt32, Nat.mod_eq_of_lt hword, if_pos hhalf]
  refine ⟨hval, ?_, ?_, by decide⟩
  · rw [hval]
    exact_mod_cast h2
  · intro k hk
    rw [hval]
    have htk : t + 1 ≤ k := by
      by_contra hc
      push_neg at hc
      have : 2 ^ k ≤ 2 ^ t := Nat.pow_le_pow_right (by omega) (by omega)
      omega
    exact_mod_cast Nat.pow_le_pow_right (by omega) htk

theorem C2_tablen_next_pow2_witness :
    2 ^ 2 ≤ 5 ∧ 5 < 2 ^ 3 ∧ (2 : Nat) < 30 ∧ janet_tablen 5 = ((2 ^ 3 : Nat) : Int) :=
  ⟨by omega, by omega, by omega,
    (C2_tablen_next_pow2 5 2 (by omega) (by omega) (by omega)).1⟩
